import Mathlib

/-!
# Verification of the houdini document scrubber and type-definition synthesizer

Shallow embedding of:
* `src/cmd/utils/scrubSelection.ts` — `scrubSelection`: removes internal
  directives from a GraphQL document AST and prunes variable definitions that
  are no longer referenced.
* `src/cmd/generators/typescript/index.ts` (the unnamed source file) —
  `typescriptGenerator`, `generateOperationTypeDefs`,
  `generateFragmentTypeDefs`, `fragmentKey`: synthesize TypeScript
  type-definition programs for operations and fragments, and compose the
  re-export index manifest.

The GraphQL AST is modelled with the fields the code traverses.  GraphQL
constant values (used for variable-definition default values and
variable-definition directives) cannot contain `Variable` nodes by the GraphQL
grammar, so they are represented by the `Value.scalar` constructor and
variable-definition directives/default values are omitted: they can contribute
neither a variable reference nor a non-constant subtree.
-/

namespace Houdini

/-- A GraphQL input value.  `scalar` covers Int/Float/String/Boolean/Null/Enum
literals, whose contents the scrubber never inspects. -/
inductive Value where
  | «variable» (name : String)
  | scalar (text : String)
  | listValue (values : List Value)
  | objectValue (fields : List (String × Value))
deriving Repr

/-- An argument node: `name: value`. -/
structure Argument where
  name : String
  value : Value
deriving Repr

/-- A directive node: `@name(args)`. -/
structure Directive where
  name : String
  arguments : List Argument
deriving Repr

/-- A variable-definition node `$variable: type`.  The `variable` field is the
name of the defining `Variable` child node (whose immediate parent is the
`VariableDefinition`, so the visitor never counts it as a use). -/
structure VariableDefinition where
  «variable» : String
  type : String
deriving Repr, DecidableEq

/-- A selection node: field, fragment spread, or inline fragment. -/
inductive Selection where
  | field («alias» : Option String) (name : String) (arguments : List Argument)
      (directives : List Directive) (selectionSet : List Selection)
  | fragmentSpread (name : String) (directives : List Directive)
  | inlineFragment (typeCondition : Option String) (directives : List Directive)
      (selectionSet : List Selection)
deriving Repr

/-- The three GraphQL operation kinds. -/
inductive OperationType where
  | query
  | mutation
  | subscription
deriving Repr, DecidableEq

/-- An operation definition.  `name` is optional in GraphQL. -/
structure OperationDefinition where
  name : Option String
  operation : OperationType
  variableDefinitions : List VariableDefinition
  directives : List Directive
  selectionSet : List Selection
deriving Repr

/-- A fragment definition. -/
structure FragmentDefinition where
  name : String
  typeCondition : String
  directives : List Directive
  selectionSet : List Selection
deriving Repr

/-- An executable definition of a document. -/
inductive Definition where
  | operation (op : OperationDefinition)
  | fragment (frag : FragmentDefinition)
deriving Repr

/-- A GraphQL document AST. -/
structure Document where
  definitions : List Definition
deriving Repr

/-- The slice of the GraphQL schema object the generator consults:
`getQueryType()`, `getMutationType()`, `getSubscriptionType()` return the root
type for the respective operation kind when the schema declares one, and
`getType(name)` resolves a named type. -/
structure GraphQLSchema where
  queryType : Option String
  mutationType : Option String
  subscriptionType : Option String
  namedTypes : List String

/-- Embeds `schema.getType(name)`. -/
def GraphQLSchema.getType (s : GraphQLSchema) (name : String) : Option String :=
  if s.namedTypes.contains name then some name else none

/-- The slice of `Config` the two source files read. -/
structure Config where
  isInternalDirective : Directive → Bool
  schema : GraphQLSchema
  internalTypeDefinitionFileName : String

/-! ## Variable collection

`graphql.visit`'s `Variable` visitor records every `Variable` node whose
immediate parent is not a `VariableDefinition`.  The collectors below gather
exactly those occurrences, in visit order. -/

mutual

/-- Variable references inside a value. -/
def Value.vars : Value → List String
  | .«variable» n => [n]
  | .scalar _ => []
  | .listValue vs => valuesVars vs
  | .objectValue fs => objectFieldsVars fs

/-- Variable references inside a list of values. -/
def valuesVars : List Value → List String
  | [] => []
  | v :: vs => v.vars ++ valuesVars vs

/-- Variable references inside object-value fields. -/
def objectFieldsVars : List (String × Value) → List String
  | [] => []
  | (_, v) :: fs => v.vars ++ objectFieldsVars fs

end

/-- Variable references inside a list of arguments. -/
def argumentsVars (args : List Argument) : List String :=
  args.flatMap (fun a => a.value.vars)

/-- Variable references inside a directive (its argument values). -/
def Directive.vars (d : Directive) : List String :=
  argumentsVars d.arguments

/-- Variable references inside a list of directives. -/
def directivesVars (ds : List Directive) : List String :=
  ds.flatMap Directive.vars

mutual

/-- Variable references inside a selection. -/
def Selection.vars : Selection → List String
  | .field _ _ args ds ss => argumentsVars args ++ directivesVars ds ++ selectionsVars ss
  | .fragmentSpread _ ds => directivesVars ds
  | .inlineFragment _ ds ss => directivesVars ds ++ selectionsVars ss

/-- Variable references inside a selection set. -/
def selectionsVars : List Selection → List String
  | [] => []
  | s :: ss => s.vars ++ selectionsVars ss

end

/-- Non-defining variable references inside an operation definition.  The
defining `Variable` child of each `VariableDefinition` is excluded (its parent
is the `VariableDefinition` node). -/
def OperationDefinition.vars (op : OperationDefinition) : List String :=
  directivesVars op.directives ++ selectionsVars op.selectionSet

/-- Non-defining variable references inside a fragment definition. -/
def FragmentDefinition.vars (f : FragmentDefinition) : List String :=
  directivesVars f.directives ++ selectionsVars f.selectionSet

/-- Non-defining variable references inside a definition. -/
def Definition.vars : Definition → List String
  | .operation op => op.vars
  | .fragment f => f.vars

/-- All non-defining variable references of a document: the contents of
`usedVariableNames` after the first `graphql.visit` traversal. -/
def referencedVariables (doc : Document) : List String :=
  doc.definitions.flatMap Definition.vars

/-! ## Directive collection -/

mutual

/-- All directive nodes inside a selection. -/
def Selection.dirs : Selection → List Directive
  | .field _ _ _ ds ss => ds ++ selectionsDirs ss
  | .fragmentSpread _ ds => ds
  | .inlineFragment _ ds ss => ds ++ selectionsDirs ss

/-- All directive nodes inside a selection set. -/
def selectionsDirs : List Selection → List Directive
  | [] => []
  | s :: ss => s.dirs ++ selectionsDirs ss

end

/-- All directive nodes inside a definition. -/
def Definition.dirs : Definition → List Directive
  | .operation op => op.directives ++ selectionsDirs op.selectionSet
  | .fragment f => f.directives ++ selectionsDirs f.selectionSet

/-- All directive nodes of a document. -/
def Document.dirs (doc : Document) : List Directive :=
  doc.definitions.flatMap Definition.dirs

/-! ## Pass 1: directive elision

The `Directive` visitor returns `null` for internal directives, which deletes
the directive node (its subtree is skipped, so its argument variables are not
recorded).  On a tree this is removal of every directive node satisfying the
predicate. -/

/-- Remove internal directives from a directive list. -/
def elideDirectives (p : Directive → Bool) (ds : List Directive) : List Directive :=
  ds.filter (fun d => !p d)

mutual

/-- Remove internal directives everywhere inside a selection. -/
def elideSelection (p : Directive → Bool) : Selection → Selection
  | .field a n args ds ss => .field a n args (elideDirectives p ds) (elideSelections p ss)
  | .fragmentSpread n ds => .fragmentSpread n (elideDirectives p ds)
  | .inlineFragment tc ds ss =>
      .inlineFragment tc (elideDirectives p ds) (elideSelections p ss)

/-- Remove internal directives everywhere inside a selection set. -/
def elideSelections (p : Directive → Bool) : List Selection → List Selection
  | [] => []
  | s :: ss => elideSelection p s :: elideSelections p ss

end

/-- Remove internal directives everywhere inside a definition. -/
def elideDefinition (p : Directive → Bool) : Definition → Definition
  | .operation op =>
      .operation { op with
        directives := elideDirectives p op.directives
        selectionSet := elideSelections p op.selectionSet }
  | .fragment f =>
      .fragment { f with
        directives := elideDirectives p f.directives
        selectionSet := elideSelections p f.selectionSet }

/-- The result of the first `graphql.visit` traversal: the document with every
internal directive node removed. -/
def elideDocument (p : Directive → Bool) (doc : Document) : Document :=
  ⟨doc.definitions.map (elideDefinition p)⟩

/-! ## Pass 2: unused-variable-definition pruning -/

/-- The second `graphql.visit` traversal deletes each `VariableDefinition`
whose name is not in the used set; such nodes occur only in operation
definitions. -/
def pruneDefinition (used : List String) : Definition → Definition
  | .operation op =>
      .operation { op with
        variableDefinitions :=
          op.variableDefinitions.filter (fun vd => used.contains vd.«variable») }
  | .fragment f => .fragment f

/-- Prune unused variable definitions throughout the document. -/
def pruneDocument (used : List String) (doc : Document) : Document :=
  ⟨doc.definitions.map (pruneDefinition used)⟩

/-- Embeds `scrubSelection` (src/cmd/utils/scrubSelection.ts).  The single
`graphql.visit` call both deletes internal directives and accumulates
`usedVariableNames`; because deleted directive subtrees are skipped by the
traversal, the accumulated set is exactly the non-defining variable references
of the directive-elided document.  The second visit prunes unused variable
definitions. -/
def scrubSelection (config : Config) (document : Document) : Document :=
  let documentWithoutInternalDirectives :=
    elideDocument config.isInternalDirective document
  let usedVariableNames := referencedVariables documentWithoutInternalDirectives
  pruneDocument usedVariableNames documentWithoutInternalDirectives

/-- The variable definitions carried by a definition (only operation
definitions declare variables). -/
def Definition.varDefs : Definition → List VariableDefinition
  | .operation op => op.variableDefinitions
  | .fragment _ => []

/-- All variable definitions appearing in a document. -/
def Document.varDefs (doc : Document) : List VariableDefinition :=
  doc.definitions.flatMap Definition.varDefs

/-! ## The generated TypeScript AST

Just the recast/ast-types node shapes the generator builds:
`tsTypeReference` on an identifier, `tsNullKeyword`, `tsUndefinedKeyword`,
`tsUnionType`, `tsTypeLiteral` over `tsPropertySignature`s (with `readonly`
and `optional` flags), `tsLiteralType(booleanLiteral(true))`, import
declarations and exported type aliases. -/

mutual

/-- A generated TypeScript type expression. -/
inductive TsType where
  | ref (name : String)
  | nullKeyword
  | undefinedKeyword
  | trueLiteral
  | union (members : List TsType)
  | typeLiteral (props : List TsProperty)
deriving Repr

/-- A `tsPropertySignature` with its `readonly` and `optional` flags.
Property keys are the string literals the generator writes. -/
inductive TsProperty where
  | mk (key : String) (readonly : Bool) (optional : Bool) (type : TsType)
deriving Repr

end

/-- A top-level statement of a generated type-definition program. -/
inductive TsStatement where
  | importTypeDeclaration (specifiers : List String) (source : String)
  | exportTypeAlias (name : String) (rhs : TsType)
  | exportAllDeclaration (source : String)
deriving Repr

/-- A generated program: an ordered sequence of top-level statements. -/
abbrev TsProgram := List TsStatement

/-- Modelled from the spec: `readonlyProperty` (imported from `./types`, a
file of this repository that is not part of the sources here) marks a
property signature read-only; every field of the object types emitted by the
synthesizers is read-only. -/
def readonlyProperty : TsProperty → TsProperty
  | .mk key _ optional type => .mk key true optional type

/-- Embeds `tsPropertySignature(key, type, optional?)`: not read-only unless wrapped
in `readonlyProperty`. -/
def tsPropertySignature (key : String) (type : TsType) (optional : Bool := false) :
    TsProperty :=
  .mk key false optional type

/-- Embeds `internalTypeImport`: a type-only import of one identifier from the
internal type-definition file. -/
def internalTypeImport (config : Config) (identifier : String) : TsStatement :=
  .importTypeDeclaration [identifier] ("./" ++ config.internalTypeDefinitionFileName)

/-- Computes `operation[0].toUpperCase() + operation.slice(1)` applied to the
operation-kind string. -/
def OperationType.capitalized : OperationType → String
  | .query => "Query"
  | .mutation => "Mutation"
  | .subscription => "Subscription"

/-- The root-type lookup of `generateOperationTypeDefs`:
`getQueryType()` / `getMutationType()` / `getSubscriptionType()`. -/
def rootTypeFor (schema : GraphQLSchema) : OperationType → Option String
  | .query => schema.queryType
  | .mutation => schema.mutationType
  | .subscription => schema.subscriptionType

/-- Embeds `generateOperationTypeDefs`.  `definition.name!.value` on an anonymous
operation dereferences `undefined` and throws a `TypeError`, modelled as the
first error branch; a missing root type throws
`'Could not find root type for document'`. -/
def generateOperationTypeDefs (config : Config) (definition : OperationDefinition) :
    Except String TsProgram :=
  match definition.name with
  | none => .error "TypeError: Cannot read properties of undefined"
  | some name =>
    let inputTypeName := name ++ "$input"
    let shapeTypeName := name ++ "$result"
    let afterLoadTypeName := name ++ "$afterLoad"
    match rootTypeFor config.schema definition.operation with
    | none => .error "Could not find root type for document"
    | some _ =>
      let hasInputs := definition.variableDefinitions.length > 0
      let shapeType := name ++ definition.operation.capitalized
      let inputDecls : List TsStatement :=
        if hasInputs then
          [internalTypeImport config (shapeType ++ "Variables"),
           .exportTypeAlias inputTypeName (.ref (shapeType ++ "Variables"))]
        else []
      let rootDecl : TsStatement :=
        .exportTypeAlias name (.typeLiteral [
          readonlyProperty (tsPropertySignature "input"
            (if hasInputs then .ref inputTypeName else .nullKeyword)),
          readonlyProperty (tsPropertySignature "result"
            (if definition.operation = .mutation then .ref shapeTypeName
             else .union [.ref shapeTypeName, .undefinedKeyword]))])
      let resultDecl : TsStatement :=
        .exportTypeAlias shapeTypeName (.ref shapeType)
      let dataProperty :=
        readonlyProperty (tsPropertySignature "data"
          (.typeLiteral [readonlyProperty (tsPropertySignature name (.ref shapeTypeName))]))
      let properties : List TsProperty :=
        if hasInputs then
          [readonlyProperty (tsPropertySignature "input"
            (.typeLiteral [readonlyProperty (tsPropertySignature name (.ref inputTypeName))])),
           dataProperty]
        else [dataProperty]
      let afterLoadDecls : List TsStatement :=
        if definition.operation = .query then
          [.exportTypeAlias afterLoadTypeName (.typeLiteral properties)]
        else []
      .ok ([internalTypeImport config shapeType] ++ inputDecls
        ++ [rootDecl, resultDecl] ++ afterLoadDecls)

/-- Embeds `fragmentKey`: the fixed marker field name. -/
def fragmentKey : String := "$fragments"

/-- Embeds `generateFragmentTypeDefs`.  An unresolvable type condition throws
`'Should not get here'` before any statement is produced. -/
def generateFragmentTypeDefs (config : Config) (definition : FragmentDefinition) :
    Except String TsProgram :=
  let propTypeName := definition.name
  let shapeTypeName := definition.name ++ "$data"
  match config.schema.getType definition.typeCondition with
  | none => .error "Should not get here"
  | some _ =>
    let internalType := definition.name ++ "Fragment"
    .ok [internalTypeImport config internalType,
      .exportTypeAlias propTypeName (.typeLiteral [
        readonlyProperty (tsPropertySignature "shape" (.ref shapeTypeName) true),
        readonlyProperty (tsPropertySignature fragmentKey
          (.typeLiteral [tsPropertySignature propTypeName .trueLiteral]))]),
      .exportTypeAlias shapeTypeName (.ref internalType)]

/-! ## The index manifest -/

/-- A character allowed inside one extension segment of the suffix regex:
anything but `/` and `.`. -/
def isExtChar (c : Char) : Bool :=
  c != '/' && c != '.'

/-- The effect of `.replace(/\.[^\/.]+\.[^\/.]+$/, '')` on the reversed
character list: strip a trailing `.ext.ext` (two non-empty dot-separated
runs of non-slash, non-dot characters), or report no match. -/
def dropDualExtensionRev (cs : List Char) : Option (List Char) :=
  let outer := cs.span isExtChar
  match outer.2 with
  | '.' :: rest =>
    if outer.1.isEmpty then none
    else
      let inner := rest.span isExtChar
      match inner.2 with
      | '.' :: rest2 => if inner.1.isEmpty then none else some rest2
      | _ => none
  | _ => none

/-- Embeds `typePath.replace` of the dual-extension suffix pattern: remove one level of dual
extension from the end of the path, if present. -/
def stripTypeSuffix (s : String) : String :=
  match dropDualExtensionRev s.data.reverse with
  | some rest => ⟨rest.reverse⟩
  | none => s

/-- The `typeIndex` program built by `typescriptGenerator` from the collected
`typePaths`.  `relative` stands for the external
`path.relative(path.resolve(config.typeIndexPath, '..'), ·)` computation of
Node's path module (an external collaborator). -/
def typeIndexProgram (relative : String → String) (typePaths : List String) :
    TsProgram :=
  typePaths.map (fun typePath =>
    .exportAllDeclaration ("./" ++ stripTypeSuffix (relative typePath)))
  ++ [.exportAllDeclaration "./runtime", .exportAllDeclaration "./stores"]

/-- The name a definition is matched by in `typescriptGenerator`:
`def.name?.value`. -/
def Definition.defName : Definition → Option String
  | .operation op => op.name
  | .fragment f => some f.name

/-- The definition lookup of `typescriptGenerator`:
`originalDocument.definitions.find(def => (def.kind === 'OperationDefinition'
|| def.kind === 'FragmentDefinition') && def.name?.value === name)`.  Both
kinds of our `Definition` satisfy the kind test; `undefined === name` is
false for every string `name`. -/
def findDefinition (doc : Document) (name : String) : Option Definition :=
  doc.definitions.find? (fun d => d.defName == some name)

/-! ## Lemmas about the scrubber -/

theorem elideDirectives_not (p : Directive → Bool) (ds : List Directive) :
    ∀ d ∈ elideDirectives p ds, p d = false := by
  intro d hd
  have h := List.mem_filter.mp hd
  simpa using h.2

mutual

theorem elideSelection_dirs_not (p : Directive → Bool) :
    (s : Selection) → ∀ d ∈ (elideSelection p s).dirs, p d = false
  | .field a n args ds ss, d, hd => by
      rw [elideSelection, Selection.dirs] at hd
      rcases List.mem_append.mp hd with h | h
      · exact elideDirectives_not p ds d h
      · exact elideSelections_dirs_not p ss d h
  | .fragmentSpread n ds, d, hd => by
      rw [elideSelection, Selection.dirs] at hd
      exact elideDirectives_not p ds d hd
  | .inlineFragment tc ds ss, d, hd => by
      rw [elideSelection, Selection.dirs] at hd
      rcases List.mem_append.mp hd with h | h
      · exact elideDirectives_not p ds d h
      · exact elideSelections_dirs_not p ss d h

theorem elideSelections_dirs_not (p : Directive → Bool) :
    (ss : List Selection) → ∀ d ∈ selectionsDirs (elideSelections p ss), p d = false
  | [], d, hd => by rw [elideSelections] at hd; simp [selectionsDirs] at hd
  | s :: ss, d, hd => by
      rw [elideSelections, selectionsDirs] at hd
      rcases List.mem_append.mp hd with h | h
      · exact elideSelection_dirs_not p s d h
      · exact elideSelections_dirs_not p ss d h

end

theorem elideDefinition_dirs_not (p : Directive → Bool) (df : Definition) :
    ∀ d ∈ (elideDefinition p df).dirs, p d = false := by
  intro d hd
  cases df with
  | operation op =>
      rw [elideDefinition, Definition.dirs] at hd
      rcases List.mem_append.mp hd with h | h
      · exact elideDirectives_not p op.directives d h
      · exact elideSelections_dirs_not p op.selectionSet d h
  | fragment f =>
      rw [elideDefinition, Definition.dirs] at hd
      rcases List.mem_append.mp hd with h | h
      · exact elideDirectives_not p f.directives d h
      · exact elideSelections_dirs_not p f.selectionSet d h

theorem elideDocument_dirs_not (p : Directive → Bool) (doc : Document) :
    ∀ d ∈ (elideDocument p doc).dirs, p d = false := by
  intro d hd
  rw [elideDocument, Document.dirs] at hd
  obtain ⟨df, hdf, hmem⟩ := List.mem_flatMap.mp hd
  obtain ⟨df0, _, rfl⟩ := List.mem_map.mp hdf
  exact elideDefinition_dirs_not p df0 d hmem

/-- Pass 2 removes only `VariableDefinition` nodes, which carry no
directives, so the directive nodes of the document are unchanged. -/
theorem pruneDefinition_dirs (used : List String) (df : Definition) :
    (pruneDefinition used df).dirs = df.dirs := by
  cases df <;> rfl

theorem pruneDocument_dirs (used : List String) (doc : Document) :
    (pruneDocument used doc).dirs = doc.dirs := by
  rw [pruneDocument, Document.dirs, Document.dirs]
  simp [List.flatMap_map]
  congr 1
  funext df
  exact pruneDefinition_dirs used df

/-- Pass 2 removes only `VariableDefinition` nodes, whose defining variable
occurrence is never a use, so the non-defining variable references of the
document are unchanged. -/
theorem pruneDefinition_vars (used : List String) (df : Definition) :
    (pruneDefinition used df).vars = df.vars := by
  cases df <;> rfl

theorem pruneDocument_vars (used : List String) (doc : Document) :
    referencedVariables (pruneDocument used doc) = referencedVariables doc := by
  rw [pruneDocument, referencedVariables, referencedVariables]
  simp [List.flatMap_map]
  congr 1
  funext df
  exact pruneDefinition_vars used df

/-- A variable definition surviving pass 2 has its name in the used set. -/
theorem mem_varDefs_prune (used : List String) (doc : Document)
    (vd : VariableDefinition) (h : vd ∈ (pruneDocument used doc).varDefs) :
    used.contains vd.«variable» = true := by
  rw [pruneDocument, Document.varDefs] at h
  obtain ⟨df, hdf, hmem⟩ := List.mem_flatMap.mp h
  obtain ⟨df0, _, rfl⟩ := List.mem_map.mp hdf
  cases df0 with
  | operation op =>
      rw [pruneDefinition, Definition.varDefs] at hmem
      exact (List.mem_filter.mp hmem).2
  | fragment f =>
      rw [pruneDefinition, Definition.varDefs] at hmem
      exact absurd hmem (List.not_mem_nil vd)

theorem elideDirectives_id (p : Directive → Bool) (ds : List Directive)
    (h : ∀ d ∈ ds, p d = false) : elideDirectives p ds = ds := by
  rw [elideDirectives]
  apply List.filter_eq_self.mpr
  intro d hd
  simp [h d hd]

mutual

theorem elideSelection_id (p : Directive → Bool) :
    (s : Selection) → (∀ d ∈ s.dirs, p d = false) → elideSelection p s = s
  | .field a n args ds ss, h => by
      rw [Selection.dirs] at h
      rw [elideSelection,
        elideDirectives_id p ds (fun d hd => h d (List.mem_append.mpr (.inl hd))),
        elideSelections_id p ss (fun d hd => h d (List.mem_append.mpr (.inr hd)))]
  | .fragmentSpread n ds, h => by
      rw [Selection.dirs] at h
      rw [elideSelection, elideDirectives_id p ds h]
  | .inlineFragment tc ds ss, h => by
      rw [Selection.dirs] at h
      rw [elideSelection,
        elideDirectives_id p ds (fun d hd => h d (List.mem_append.mpr (.inl hd))),
        elideSelections_id p ss (fun d hd => h d (List.mem_append.mpr (.inr hd)))]

theorem elideSelections_id (p : Directive → Bool) :
    (ss : List Selection) → (∀ d ∈ selectionsDirs ss, p d = false) →
      elideSelections p ss = ss
  | [], _ => by rw [elideSelections]
  | s :: ss, h => by
      rw [selectionsDirs] at h
      rw [elideSelections,
        elideSelection_id p s (fun d hd => h d (List.mem_append.mpr (.inl hd))),
        elideSelections_id p ss (fun d hd => h d (List.mem_append.mpr (.inr hd)))]

end

theorem elideDefinition_id (p : Directive → Bool) (df : Definition)
    (h : ∀ d ∈ df.dirs, p d = false) : elideDefinition p df = df := by
  cases df with
  | operation op =>
      rw [Definition.dirs] at h
      rw [elideDefinition,
        elideDirectives_id p op.directives (fun d hd => h d (List.mem_append.mpr (.inl hd))),
        elideSelections_id p op.selectionSet (fun d hd => h d (List.mem_append.mpr (.inr hd)))]
  | fragment f =>
      rw [Definition.dirs] at h
      rw [elideDefinition,
        elideDirectives_id p f.directives (fun d hd => h d (List.mem_append.mpr (.inl hd))),
        elideSelections_id p f.selectionSet (fun d hd => h d (List.mem_append.mpr (.inr hd)))]

theorem elideDocument_id (p : Directive → Bool) (doc : Document)
    (h : ∀ d ∈ doc.dirs, p d = false) : elideDocument p doc = doc := by
  rw [elideDocument]
  cases doc with
  | mk defs =>
      congr 1
      have h2 : ∀ df ∈ defs, elideDefinition p df = id df := by
        intro df hdf
        apply elideDefinition_id
        intro d hd
        exact h d (List.mem_flatMap.mpr ⟨df, hdf, hd⟩)
      rw [List.map_congr_left h2, List.map_id]

theorem pruneDefinition_id (used : List String) (df : Definition)
    (h : ∀ vd ∈ df.varDefs, used.contains vd.«variable» = true) :
    pruneDefinition used df = df := by
  cases df with
  | operation op =>
      have hf : op.variableDefinitions.filter
          (fun vd => used.contains vd.«variable») = op.variableDefinitions :=
        List.filter_eq_self.mpr (fun vd hvd => h vd (by rwa [Definition.varDefs]))
      rw [pruneDefinition, hf]
  | fragment f => rfl

theorem pruneDocument_id (used : List String) (doc : Document)
    (h : ∀ vd ∈ doc.varDefs, used.contains vd.«variable» = true) :
    pruneDocument used doc = doc := by
  rw [pruneDocument]
  cases doc with
  | mk defs =>
      congr 1
      have h2 : ∀ df ∈ defs, pruneDefinition used df = id df := by
        intro df hdf
        apply pruneDefinition_id
        intro vd hvd
        apply h
        rw [Document.varDefs]
        exact List.mem_flatMap.mpr ⟨df, hdf, hvd⟩
      rw [List.map_congr_left h2, List.map_id]

/-! ## Concrete example documents (from §8 of the spec) -/

/-- A configuration whose only internal directive is `@internal`. -/
def internalConfig : Config where
  isInternalDirective := fun d => d.name == "internal"
  schema :=
    { queryType := some "Query", mutationType := none,
      subscriptionType := none, namedTypes := ["User"] }
  internalTypeDefinitionFileName := "types.d.ts"

/-- Document `query Q { f @keep }`: one retained, non-internal directive. -/
def keepDoc : Document :=
  ⟨[.operation
      { name := some "Q", operation := .query, variableDefinitions := [],
        directives := [],
        selectionSet := [.field none "f" [] [⟨"keep", []⟩] []] }]⟩

/-- Document `query Q($id: ID!) { field @internal(arg: $id) }`. -/
def onlyInternalUseDoc : Document :=
  ⟨[.operation
      { name := some "Q", operation := .query,
        variableDefinitions := [⟨"id", "ID!"⟩], directives := [],
        selectionSet :=
          [.field none "field" []
            [⟨"internal", [⟨"arg", .«variable» "id"⟩]⟩] []] }]⟩

/-- Document `query Q { field }`: the expected scrub of `onlyInternalUseDoc`. -/
def onlyInternalUseScrubbed : Document :=
  ⟨[.operation
      { name := some "Q", operation := .query, variableDefinitions := [],
        directives := [],
        selectionSet := [.field none "field" [] [] []] }]⟩

/-- The operation of `sharedVarDoc`:
`query Q($id: ID!) { node(id: $id) @internal }`. -/
def sharedVarOp : OperationDefinition where
  name := some "Q"
  operation := .query
  variableDefinitions := [⟨"id", "ID!"⟩]
  directives := []
  selectionSet :=
    [.field none "node" [⟨"id", .«variable» "id"⟩] [⟨"internal", []⟩] []]

/-- Document `query Q($id: ID!) { node(id: $id) @internal }`. -/
def sharedVarDoc : Document := ⟨[.operation sharedVarOp]⟩

/-- Document `query Q($id: ID!) { node(id: $id) }`: the expected scrub of
`sharedVarDoc`. -/
def sharedVarScrubbed : Document :=
  ⟨[.operation
      { name := some "Q", operation := .query,
        variableDefinitions := [⟨"id", "ID!"⟩], directives := [],
        selectionSet :=
          [.field none "node" [⟨"id", .«variable» "id"⟩] [] []] }]⟩

/-- Document `query Q($id: ID!) { f }`: a declared variable that is never referenced,
and no directives at all. -/
def unusedVarDoc : Document :=
  ⟨[.operation
      { name := some "Q", operation := .query,
        variableDefinitions := [⟨"id", "ID!"⟩], directives := [],
        selectionSet := [.field none "f" [] [] []] }]⟩

/-- Document `query Q($id: ID!) { node(id: $id) }`: every declared variable is
referenced and there are no directives. -/
def usedVarDoc : Document :=
  ⟨[.operation
      { name := some "Q", operation := .query,
        variableDefinitions := [⟨"id", "ID!"⟩], directives := [],
        selectionSet := [.field none "node" [⟨"id", .«variable» "id"⟩] [] []] }]⟩

/-! ## Claims about the scrubber -/

/-- C1: for every document and every (total) internal-directive predicate,
the document returned by `scrubSelection` contains no directive node
satisfying the predicate. -/
theorem claim1_scrub_removes_all_internal_directives
    (config : Config) (document : Document) :
    ∀ d ∈ (scrubSelection config document).dirs,
      config.isInternalDirective d = false := by
  intro d hd
  simp only [scrubSelection] at hd
  rw [pruneDocument_dirs] at hd
  exact elideDocument_dirs_not _ document d hd

theorem claim1_scrub_removes_all_internal_directives_witness :
    (Directive.mk "keep" []) ∈ (scrubSelection internalConfig keepDoc).dirs ∧
    internalConfig.isInternalDirective (Directive.mk "keep" []) = false := by
  have hmem : (Directive.mk "keep" []) ∈ (scrubSelection internalConfig keepDoc).dirs :=
    List.mem_singleton.mpr rfl
  exact ⟨hmem,
    claim1_scrub_removes_all_internal_directives internalConfig keepDoc _ hmem⟩

/-- C2: every variable definition remaining in the scrubbed document has a
non-defining `Variable` reference somewhere in the scrubbed document's
retained subtrees; and, as on the spec's example, a variable referenced only
inside a removed internal directive has its definition deleted
(`query Q($id: ID!) { field @internal(arg: $id) }` scrubs to
`query Q { field }`). -/
theorem claim2_remaining_vardefs_are_referenced :
    (∀ (config : Config) (document : Document) (vd : VariableDefinition),
      vd ∈ (scrubSelection config document).varDefs →
      vd.«variable» ∈ referencedVariables (scrubSelection config document)) ∧
    scrubSelection internalConfig onlyInternalUseDoc = onlyInternalUseScrubbed := by
  constructor
  · intro config document vd h
    simp only [scrubSelection] at h ⊢
    have hc := mem_varDefs_prune _ _ _ h
    rw [pruneDocument_vars]
    exact List.elem_iff.mp hc
  · rfl

theorem claim2_remaining_vardefs_are_referenced_witness :
    (⟨"id", "ID!"⟩ : VariableDefinition) ∈
      (scrubSelection internalConfig usedVarDoc).varDefs ∧
    "id" ∈ referencedVariables (scrubSelection internalConfig usedVarDoc) := by
  have hmem : (⟨"id", "ID!"⟩ : VariableDefinition) ∈
      (scrubSelection internalConfig usedVarDoc).varDefs := by decide
  exact ⟨hmem,
    claim2_remaining_vardefs_are_referenced.1 internalConfig usedVarDoc _ hmem⟩

/-- C3: a variable referenced in a retained part of the document (possibly in
addition to references inside removed internal directives) keeps its
variable definition; and the spec's example
`query Q($id: ID!) { node(id: $id) @internal }` scrubs to
`query Q($id: ID!) { node(id: $id) }`. -/
theorem claim3_shared_variable_definition_retained :
    (∀ (config : Config) (document : Document) (op : OperationDefinition)
      (vd : VariableDefinition),
      Definition.operation op ∈ document.definitions →
      vd ∈ op.variableDefinitions →
      vd.«variable» ∈
        referencedVariables (elideDocument config.isInternalDirective document) →
      vd ∈ (scrubSelection config document).varDefs) ∧
    scrubSelection internalConfig sharedVarDoc = sharedVarScrubbed := by
  constructor
  · intro config document op vd hop hvd href
    simp only [scrubSelection, Document.varDefs]
    apply List.mem_flatMap.mpr
    refine ⟨pruneDefinition
        (referencedVariables (elideDocument config.isInternalDirective document))
        (elideDefinition config.isInternalDirective (.operation op)), ?_, ?_⟩
    · simp only [pruneDocument, elideDocument]
      exact List.mem_map.mpr
        ⟨elideDefinition config.isInternalDirective (.operation op),
         List.mem_map.mpr ⟨.operation op, hop, rfl⟩, rfl⟩
    · show vd ∈ op.variableDefinitions.filter
        (fun vd => (referencedVariables
          (elideDocument config.isInternalDirective document)).contains vd.«variable»)
      exact List.mem_filter.mpr ⟨hvd, List.elem_iff.mpr href⟩
  · rfl

theorem claim3_shared_variable_definition_retained_witness :
    Definition.operation sharedVarOp ∈ sharedVarDoc.definitions ∧
    (⟨"id", "ID!"⟩ : VariableDefinition) ∈ sharedVarOp.variableDefinitions ∧
    "id" ∈ referencedVariables
      (elideDocument internalConfig.isInternalDirective sharedVarDoc) ∧
    (⟨"id", "ID!"⟩ : VariableDefinition) ∈
      (scrubSelection internalConfig sharedVarDoc).varDefs := by
  have hop : Definition.operation sharedVarOp ∈ sharedVarDoc.definitions :=
    List.mem_singleton.mpr rfl
  have hvd : (⟨"id", "ID!"⟩ : VariableDefinition) ∈ sharedVarOp.variableDefinitions := by
    decide
  have href : "id" ∈ referencedVariables
      (elideDocument internalConfig.isInternalDirective sharedVarDoc) := by decide
  exact ⟨hop, hvd, href,
    claim3_shared_variable_definition_retained.1 internalConfig sharedVarDoc
      sharedVarOp _ hop hvd href⟩

/-- C9, counterexample: `unusedVarDoc` contains no directive at all (so in
particular none satisfying `isInternalDirective`), yet `scrubSelection` is
not a no-op on it: the unused variable definition `$id` is pruned. -/
theorem claim9_counterexample :
    (∀ d ∈ unusedVarDoc.dirs, internalConfig.isInternalDirective d = false) ∧
    scrubSelection internalConfig unusedVarDoc ≠ unusedVarDoc := by
  constructor
  · intro d hd
    exact absurd hd (List.not_mem_nil d)
  · intro h
    have h2 := congrArg Document.varDefs h
    exact absurd h2 (by decide)

/-- C9, amended: `scrubSelection` is a total function, and it is a no-op on
every document that has no internal directive and no unused variable
definition.  (The claim as stated fails: even with no internal directives,
pass 2 still prunes variable definitions that were never referenced, see the
counterexample.) -/
theorem claim9_amended_scrub_noop (config : Config) (document : Document)
    (hdir : ∀ d ∈ document.dirs, config.isInternalDirective d = false)
    (hvar : ∀ vd ∈ document.varDefs,
      vd.«variable» ∈ referencedVariables document) :
    scrubSelection config document = document := by
  simp only [scrubSelection]
  rw [elideDocument_id _ _ hdir]
  exact pruneDocument_id _ _ (fun vd hvd => List.elem_iff.mpr (hvar vd hvd))

theorem claim9_amended_scrub_noop_witness :
    (∀ d ∈ usedVarDoc.dirs, internalConfig.isInternalDirective d = false) ∧
    (∀ vd ∈ usedVarDoc.varDefs,
      vd.«variable» ∈ referencedVariables usedVarDoc) ∧
    scrubSelection internalConfig usedVarDoc = usedVarDoc := by
  have hdir : ∀ d ∈ usedVarDoc.dirs, internalConfig.isInternalDirective d = false :=
    fun d hd => absurd hd (List.not_mem_nil d)
  have hvar : ∀ vd ∈ usedVarDoc.varDefs,
      vd.«variable» ∈ referencedVariables usedVarDoc := by decide
  exact ⟨hdir, hvar, claim9_amended_scrub_noop internalConfig usedVarDoc hdir hvar⟩

/-! ## Lemmas and examples for the synthesizers -/

/-- The exported type aliases of a program that bind the given name. -/
def aliasesNamed (n : String) (prog : TsProgram) : TsProgram :=
  prog.filter fun s =>
    match s with
    | .exportTypeAlias m _ => m == n
    | _ => false

theorem append_ne_of_length_ne {s t : String} (a : String)
    (h : s.length ≠ t.length) : (a ++ s) ≠ (a ++ t) := by
  intro he
  apply h
  have h2 := congrArg String.length he
  rw [String.length_append, String.length_append] at h2
  omega

theorem append_ne_self_of_length_ne {s : String} (a : String)
    (h : s.length ≠ 0) : (a ++ s) ≠ a := by
  intro he
  apply h
  have h2 := congrArg String.length he
  rw [String.length_append] at h2
  omega

theorem append_beq_self_eq_false {s : String} (a : String) (h : s.length ≠ 0) :
    ((a ++ s) == a) = false :=
  beq_eq_false_iff_ne.mpr (append_ne_self_of_length_ne a h)

theorem append_beq_append_eq_false {s t : String} (a : String)
    (h : s.length ≠ t.length) : ((a ++ s) == (a ++ t)) = false :=
  beq_eq_false_iff_ne.mpr (append_ne_of_length_ne a h)

/-- A configuration whose schema declares all three root types. -/
def fullConfig : Config where
  isInternalDirective := fun d => d.name == "internal"
  schema :=
    { queryType := some "Query", mutationType := some "Mutation",
      subscriptionType := some "Subscription", namedTypes := ["User"] }
  internalTypeDefinitionFileName := "types.d.ts"

/-- Operation `mutation DoThing` with no variables (spec §8). -/
def doThingOp : OperationDefinition where
  name := some "DoThing"
  operation := .mutation
  variableDefinitions := []
  directives := []
  selectionSet := [.field none "do" [] [] []]

/-- Operation `query Hello($id: ID!)` with one variable (spec §8). -/
def helloOp : OperationDefinition where
  name := some "Hello"
  operation := .query
  variableDefinitions := [⟨"id", "ID!"⟩]
  directives := []
  selectionSet := [.field none "hello" [⟨"id", .«variable» "id"⟩] [] []]

/-- Fragment `fragment UserInfo on User` (spec §8). -/
def userInfoFrag : FragmentDefinition where
  name := "UserInfo"
  typeCondition := "User"
  directives := []
  selectionSet := [.field none "name" [] [] []]

/-- A fragment whose type condition names no schema type. -/
def ghostFrag : FragmentDefinition where
  name := "Ghost"
  typeCondition := "Phantom"
  directives := []
  selectionSet := []

/-- An anonymous operation definition. -/
def anonOp : OperationDefinition where
  name := none
  operation := .query
  variableDefinitions := []
  directives := []
  selectionSet := [.field none "f" [] [] []]

/-- C4: the root type alias emitted for an operation (bound to the operation
name) has exactly two read-only fields: `input`, typed `<Name>$input` when
the operation declares variables and `null` otherwise, and `result`, typed
exactly `<Name>$result` for mutations and `<Name>$result | undefined` for
queries and subscriptions. -/
theorem claim4_operation_root_alias (config : Config) (d : OperationDefinition)
    (name : String) (prog : TsProgram)
    (hname : d.name = some name)
    (hok : generateOperationTypeDefs config d = .ok prog) :
    aliasesNamed name prog =
      [.exportTypeAlias name (.typeLiteral [
        TsProperty.mk "input" true false
          (if d.variableDefinitions.length > 0 then .ref (name ++ "$input")
           else .nullKeyword),
        TsProperty.mk "result" true false
          (if d.operation = .mutation then .ref (name ++ "$result")
           else .union [.ref (name ++ "$result"), .undefinedKeyword])])] := by
  simp only [generateOperationTypeDefs, hname] at hok
  cases hroot : rootTypeFor config.schema d.operation with
  | none => rw [hroot] at hok; exact absurd hok (by simp)
  | some t =>
      rw [hroot] at hok
      injection hok with hp
      subst hp
      have e1 : ((name ++ "$input") == name) = false :=
        append_beq_self_eq_false name (by decide)
      have e2 : ((name ++ "$result") == name) = false :=
        append_beq_self_eq_false name (by decide)
      have e3 : ((name ++ "$afterLoad") == name) = false :=
        append_beq_self_eq_false name (by decide)
      cases hop : d.operation <;>
        by_cases hin : d.variableDefinitions.length > 0 <;>
          simp [aliasesNamed, hin, hop, e1, e2, e3, List.filter_cons, List.filter_nil,
            internalTypeImport, readonlyProperty, tsPropertySignature]

/-- The program `generateOperationTypeDefs` emits for `DoThing` (mutation,
no variables) under `fullConfig`. -/
def doThingProgram : TsProgram :=
  [.importTypeDeclaration ["DoThingMutation"] "./types.d.ts",
   .exportTypeAlias "DoThing" (.typeLiteral [
      TsProperty.mk "input" true false .nullKeyword,
      TsProperty.mk "result" true false (.ref "DoThing$result")]),
   .exportTypeAlias "DoThing$result" (.ref "DoThingMutation")]

theorem claim4_operation_root_alias_witness :
    doThingOp.name = some "DoThing" ∧
    generateOperationTypeDefs fullConfig doThingOp = .ok doThingProgram ∧
    aliasesNamed "DoThing" doThingProgram =
      [.exportTypeAlias "DoThing" (.typeLiteral [
        TsProperty.mk "input" true false .nullKeyword,
        TsProperty.mk "result" true false (.ref "DoThing$result")])] :=
  ⟨rfl, rfl,
   claim4_operation_root_alias fullConfig doThingOp "DoThing" doThingProgram rfl rfl⟩

/-- C5: a `<Name>$afterLoad` alias is emitted if and only if the operation is
a query; it is an object type whose (read-only) `data` field contains
`{ [OperationName]: <Name>$result }` and which, exactly when the operation
declares variables, also has a (read-only) `input` field containing
`{ [OperationName]: <Name>$input }`, placed before `data`. -/
theorem claim5_afterload_only_for_queries (config : Config) (d : OperationDefinition)
    (name : String) (prog : TsProgram)
    (hname : d.name = some name)
    (hok : generateOperationTypeDefs config d = .ok prog) :
    aliasesNamed (name ++ "$afterLoad") prog =
      if d.operation = .query then
        [.exportTypeAlias (name ++ "$afterLoad") (.typeLiteral (
          (if d.variableDefinitions.length > 0 then
            [TsProperty.mk "input" true false
              (.typeLiteral [TsProperty.mk name true false (.ref (name ++ "$input"))])]
           else [])
          ++ [TsProperty.mk "data" true false
            (.typeLiteral [TsProperty.mk name true false (.ref (name ++ "$result"))])]))]
      else [] := by
  simp only [generateOperationTypeDefs, hname] at hok
  cases hroot : rootTypeFor config.schema d.operation with
  | none => rw [hroot] at hok; exact absurd hok (by simp)
  | some t =>
      rw [hroot] at hok
      injection hok with hp
      subst hp
      have e1 : ((name ++ "$input") == (name ++ "$afterLoad")) = false :=
        append_beq_append_eq_false name (by decide)
      have e2 : ((name ++ "$result") == (name ++ "$afterLoad")) = false :=
        append_beq_append_eq_false name (by decide)
      have e3 : (name == (name ++ "$afterLoad")) = false :=
        beq_eq_false_iff_ne.mpr
          (Ne.symm (append_ne_self_of_length_ne name (by decide)))
      cases hop : d.operation <;>
        by_cases hin : d.variableDefinitions.length > 0 <;>
          simp [aliasesNamed, hin, hop, e1, e2, e3, List.filter_cons, List.filter_nil,
            internalTypeImport, readonlyProperty, tsPropertySignature]

/-- The program `generateOperationTypeDefs` emits for `Hello` (query, one
variable) under `fullConfig`: exactly the list spec §8 requires. -/
def helloProgram : TsProgram :=
  [.importTypeDeclaration ["HelloQuery"] "./types.d.ts",
   .importTypeDeclaration ["HelloQueryVariables"] "./types.d.ts",
   .exportTypeAlias "Hello$input" (.ref "HelloQueryVariables"),
   .exportTypeAlias "Hello" (.typeLiteral [
      TsProperty.mk "input" true false (.ref "Hello$input"),
      TsProperty.mk "result" true false
        (.union [.ref "Hello$result", .undefinedKeyword])]),
   .exportTypeAlias "Hello$result" (.ref "HelloQuery"),
   .exportTypeAlias "Hello$afterLoad" (.typeLiteral [
      TsProperty.mk "input" true false
        (.typeLiteral [TsProperty.mk "Hello" true false (.ref "Hello$input")]),
      TsProperty.mk "data" true false
        (.typeLiteral [TsProperty.mk "Hello" true false (.ref "Hello$result")])])]

theorem claim5_afterload_only_for_queries_witness :
    helloOp.name = some "Hello" ∧
    generateOperationTypeDefs fullConfig helloOp = .ok helloProgram ∧
    aliasesNamed "Hello$afterLoad" helloProgram =
      [.exportTypeAlias "Hello$afterLoad" (.typeLiteral [
        TsProperty.mk "input" true false
          (.typeLiteral [TsProperty.mk "Hello" true false (.ref "Hello$input")]),
        TsProperty.mk "data" true false
          (.typeLiteral [TsProperty.mk "Hello" true false (.ref "Hello$result")])])] :=
  ⟨rfl, rfl,
   claim5_afterload_only_for_queries fullConfig helloOp "Hello" helloProgram rfl rfl⟩

/-- C6: whenever the fragment's type condition resolves against the schema,
the synthesizer emits, as a pair, the prop type (aliased to the fragment
name, with a read-only optional `shape` field typed `<FragmentName>$data`
and a read-only `$fragments` field typed `{ <FragmentName>: true }`) and the
data type `<FragmentName>$data` aliasing the imported
`<FragmentName>Fragment` shape; an unresolvable type condition is a hard
failure producing no statements. -/
theorem claim6_fragment_prop_and_data_pair (config : Config) (d : FragmentDefinition) :
    (∀ t, config.schema.getType d.typeCondition = some t →
      generateFragmentTypeDefs config d = .ok
        [internalTypeImport config (d.name ++ "Fragment"),
         .exportTypeAlias d.name (.typeLiteral [
            TsProperty.mk "shape" true true (.ref (d.name ++ "$data")),
            TsProperty.mk fragmentKey true false
              (.typeLiteral [TsProperty.mk d.name false false .trueLiteral])]),
         .exportTypeAlias (d.name ++ "$data") (.ref (d.name ++ "Fragment"))]) ∧
    (config.schema.getType d.typeCondition = none →
      generateFragmentTypeDefs config d = .error "Should not get here") := by
  constructor
  · intro t ht
    simp only [generateFragmentTypeDefs, ht]
    rfl
  · intro ht
    simp only [generateFragmentTypeDefs, ht]

theorem claim6_fragment_prop_and_data_pair_witness :
    fullConfig.schema.getType userInfoFrag.typeCondition = some "User" ∧
    generateFragmentTypeDefs fullConfig userInfoFrag = .ok
      [.importTypeDeclaration ["UserInfoFragment"] "./types.d.ts",
       .exportTypeAlias "UserInfo" (.typeLiteral [
          TsProperty.mk "shape" true true (.ref "UserInfo$data"),
          TsProperty.mk "$fragments" true false
            (.typeLiteral [TsProperty.mk "UserInfo" false false .trueLiteral])]),
       .exportTypeAlias "UserInfo$data" (.ref "UserInfoFragment")] :=
  ⟨rfl,
   (claim6_fragment_prop_and_data_pair fullConfig userInfoFrag).1 "User" rfl⟩

/-- C7: the index manifest has one re-export per collected path (in order,
each relative path with one level of dual extension stripped from its end,
e.g. `.xyz.ext.ext` becomes `.xyz`), followed by exactly the two fixed
re-exports `./runtime` and `./stores`, in that order. -/
theorem claim7_index_manifest (relative : String → String) (typePaths : List String) :
    (typeIndexProgram relative typePaths).length = typePaths.length + 2 ∧
    (typeIndexProgram relative typePaths).take typePaths.length =
      typePaths.map (fun typePath =>
        .exportAllDeclaration ("./" ++ stripTypeSuffix (relative typePath))) ∧
    (typeIndexProgram relative typePaths).drop typePaths.length =
      [.exportAllDeclaration "./runtime", .exportAllDeclaration "./stores"] ∧
    stripTypeSuffix ".xyz.ext.ext" = ".xyz" := by
  refine ⟨by simp [typeIndexProgram], ?_, ?_, rfl⟩
  · rw [typeIndexProgram,
      show typePaths.length = (typePaths.map (fun typePath =>
        TsStatement.exportAllDeclaration
          ("./" ++ stripTypeSuffix (relative typePath)))).length from
        (List.length_map _ _).symm]
    exact List.take_left _ _
  · rw [typeIndexProgram,
      show typePaths.length = (typePaths.map (fun typePath =>
        TsStatement.exportAllDeclaration
          ("./" ++ stripTypeSuffix (relative typePath)))).length from
        (List.length_map _ _).symm]
    exact List.drop_left _ _

/-- Whether `needle` is a prefix of `haystack`, on character lists. -/
def startsWithChars : List Char → List Char → Bool
  | _, [] => true
  | [], _ :: _ => false
  | c :: cs, d :: ds => c == d && startsWithChars cs ds

/-- Whether `needle` occurs contiguously inside `haystack`. -/
def containsChars (haystack needle : List Char) : Bool :=
  match haystack with
  | [] => startsWithChars [] needle
  | _ :: rest => startsWithChars haystack needle || containsChars rest needle

/-- Holds exactly when `message` contains `name` as a substring. -/
def messageMentions (message name : String) : Prop :=
  containsChars message.data name.data = true

/-- C8 fails as stated: when the schema declares no root type for the
operation kind, the run does abort, but with the fixed message
`'Could not find root type for document'`, which does not contain the
offending document's name (`DoThing` here). -/
theorem claim8_counterexample :
    doThingOp.name = some "DoThing" ∧
    generateOperationTypeDefs internalConfig doThingOp =
      .error "Could not find root type for document" ∧
    ¬ messageMentions "Could not find root type for document" "DoThing" :=
  ⟨rfl, rfl, by rw [messageMentions]; decide⟩

/-- C8, amended: when the schema declares no root type for the operation's
kind, or a fragment's type condition names no existing schema type, the run
aborts with an error — but the message is the fixed string
`'Could not find root type for document'` (resp. `'Should not get here'`),
which does not identify the offending document's name. -/
theorem claim8_amended_fixed_abort_messages (config : Config) :
    (∀ (d : OperationDefinition) (name : String), d.name = some name →
      rootTypeFor config.schema d.operation = none →
      generateOperationTypeDefs config d =
        .error "Could not find root type for document") ∧
    (∀ f : FragmentDefinition, config.schema.getType f.typeCondition = none →
      generateFragmentTypeDefs config f = .error "Should not get here") := by
  constructor
  · intro d name hname hroot
    simp only [generateOperationTypeDefs, hname, hroot]
  · intro f ht
    simp only [generateFragmentTypeDefs, ht]

theorem claim8_amended_fixed_abort_messages_witness :
    doThingOp.name = some "DoThing" ∧
    rootTypeFor internalConfig.schema doThingOp.operation = none ∧
    generateOperationTypeDefs internalConfig doThingOp =
      .error "Could not find root type for document" ∧
    internalConfig.schema.getType ghostFrag.typeCondition = none ∧
    generateFragmentTypeDefs internalConfig ghostFrag =
      .error "Should not get here" :=
  ⟨rfl, rfl,
   (claim8_amended_fixed_abort_messages internalConfig).1 doThingOp "DoThing" rfl rfl,
   rfl, (claim8_amended_fixed_abort_messages internalConfig).2 ghostFrag rfl⟩

/-- C10: operation type synthesis dereferences the definition's name, so an
anonymous operation definition takes the error branch; and any definition
located by `typescriptGenerator`'s name lookup necessarily carries that
(non-null) name, making the branch unreachable under the orchestrator. -/
theorem claim10_anonymous_operation_unreachable (config : Config) :
    (∀ d : OperationDefinition, d.name = none →
      generateOperationTypeDefs config d =
        .error "TypeError: Cannot read properties of undefined") ∧
    (∀ (doc : Document) (name : String) (d : Definition),
      findDefinition doc name = some d → d.defName = some name) := by
  constructor
  · intro d hname
    simp only [generateOperationTypeDefs, hname]
  · intro doc name d hfind
    rw [findDefinition] at hfind
    have h2 := List.find?_some (p := fun x : Definition => x.defName == some name) hfind
    exact eq_of_beq h2

theorem claim10_anonymous_operation_unreachable_witness :
    anonOp.name = none ∧
    generateOperationTypeDefs fullConfig anonOp =
      .error "TypeError: Cannot read properties of undefined" ∧
    findDefinition sharedVarDoc "Q" = some (.operation sharedVarOp) ∧
    (Definition.operation sharedVarOp).defName = some "Q" :=
  ⟨rfl, (claim10_anonymous_operation_unreachable fullConfig).1 anonOp rfl, rfl,
   (claim10_anonymous_operation_unreachable fullConfig).2 sharedVarDoc "Q"
     (.operation sharedVarOp) rfl⟩

end Houdini
